import Mathlib

set_option maxHeartbeats 1000000

/-!
Shallow embedding of `src/execinfo.c` (libexecinfo).

Modelling conventions:
* Machine pointers and addresses are `Nat`; the null pointer is `0` (or, where the
  source distinguishes a null pointer from a valid one in an `Option`-like way,
  `Option Nat` with `none` for `NULL`).
* The platform is 64-bit: `sizeof(void *) = 8`, `SIZE_MAX = 2^64 - 1`.
* Strings are modelled as Lean `String`s restricted to the ASCII fragment, so
  `String.length` coincides with C `strlen` (byte length).
* `dladdr` is an external collaborator, modelled as an oracle
  `resolve : Nat → Option DlInfo`; `none` models `dladdr` returning `0`.
* The frame-walker primitives `getframeaddr` / `getreturnaddr` are oracles
  `Nat → Option Nat`, `none` modelling a `NULL` result.
* The heap is modelled by the number of outstanding allocations; `malloc` /
  `realloc` success is driven by an injected oracle `alloc : Nat → Bool`
  indexed by the allocation-call counter of one formatting call.
* `printf`-style rendering: `%p` renders as `0x` followed by lowercase hex
  without leading zeros (and as `(nil)` for a null pointer, as on glibc);
  `%td` renders a signed decimal; pointer subtraction wraps into the
  `ptrdiff_t` range `[-2^63, 2^63)`.
-/

/-- `sizeof(void *)` on the modelled 64-bit platform. -/
def ptrSize : Nat := 8

/-- `SIZE_MAX` on the modelled 64-bit platform. -/
def SIZE_MAX : Nat := 2 ^ 64 - 1

/-- `#define MAX_STACK_BUFFER 4096` from `execinfo.c`. -/
def MAX_STACK_BUFFER : Nat := 4096

/-- One digit character, `0`-`9` then lowercase `a`-`f`, as produced by
`%d` / lowercase `%x` conversions. -/
def digitChar (d : Nat) : Char :=
  if d < 10 then Char.ofNat (48 + d) else Char.ofNat (87 + d)

/-- Digit string of `n` in base `b`, most significant first, empty for `0`.
Structural recursion on explicit fuel so that concrete evaluation reduces in
the kernel; fuel `64` is ample for every value a 64-bit machine word can hold. -/
def digitsAux (b : Nat) : Nat → Nat → List Char → List Char
  | 0, _, acc => acc
  | fuel + 1, n, acc =>
    if n = 0 then acc else digitsAux b fuel (n / b) (digitChar (n % b) :: acc)

/-- Decimal rendering of a natural number (the `%u`-style digit string). -/
def natDec (n : Nat) : String :=
  if n = 0 then "0" else String.mk (digitsAux 10 64 n [])

/-- `%td` rendering of a signed value. -/
def intDec (z : Int) : String :=
  if z < 0 then "-" ++ natDec z.natAbs else natDec z.toNat

/-- glibc `%p` rendering of a pointer value: `0x` plus lowercase hex digits,
`(nil)` for the null pointer. -/
def ptrHexP (a : Nat) : String :=
  if a = 0 then "(nil)" else "0x" ++ String.mk (digitsAux 16 64 a [])

/-- Pointer subtraction `(char *)a - (char *)b` producing a `ptrdiff_t`:
the mathematical difference wrapped into `[-2^63, 2^63)`. -/
def ptrdiffWrap (a b : Nat) : Int :=
  (((a : Int) - (b : Int) + 2 ^ 63) % 2 ^ 64) - 2 ^ 63

/-- `snprintf(buf, bufsz, ...)` truncation: at most `bufsz - 1` characters of
the rendered text are stored (plus the terminating NUL, which we do not store
explicitly); a zero-sized buffer stores nothing. -/
def snprintfStr (bufsz : Nat) (s : String) : String :=
  if bufsz = 0 then "" else String.mk (s.data.take (bufsz - 1))

/-- The fields of `Dl_info` that `execinfo.c` reads, as filled in by a
successful `dladdr` call: `dli_fname` is the containing module's path,
`dli_sname` / `dli_saddr` are the nearest symbol's name and base address,
either of which may be absent (`NULL`). -/
structure DlInfo where
  dli_fname : String
  dli_sname : Option String
  dli_saddr : Option Nat
  deriving DecidableEq

/-- Symbol information after the defaulting performed by both formatters. -/
structure SymInfo where
  sname : String
  saddr : Nat
  fname : String
  deriving DecidableEq

/-- The defaulting both formatters apply to a successful `dladdr` result:
`if (info.dli_sname == NULL) info.dli_sname = "???";`
`if (info.dli_saddr == NULL) info.dli_saddr = buffer[i];`
(`execinfo.c` lines 79-82 and 139-142). -/
def applyDefaults (a : Nat) (info : DlInfo) : SymInfo :=
  { sname := info.dli_sname.getD "???"
    saddr := info.dli_saddr.getD a
    fname := info.dli_fname }

/-- The symbol-resolution stage for one address: `dladdr` plus defaulting.
`none` is the `dladdr(buffer[i], &info) == 0` case, in which the source
produces no symbol information at all and formats the bare address. -/
def resolveInfo (resolve : Nat → Option DlInfo) (a : Nat) : Option SymInfo :=
  (resolve a).map (applyDefaults a)

/-- The loop of `backtrace` (`execinfo.c` lines 50-54):
`for (i = 1; getframeaddr(i + 1) != NULL && i != size + 1; i++) {`
`  buffer[i - 1] = getreturnaddr(i);`
`  if (buffer[i - 1] == NULL) break; }`
returning `i - 1` and the final buffer.  The counter `i` starts at `1` and
increases by `1`, so the C guard `i != size + 1` is `fuel = 0` for
`fuel = size + 1 - i` (at `i = size + 1` the C code still consults
`getframeaddr(size + 2)` before exiting, which is pure and unobservable). -/
def btLoop (gfa gra : Nat → Option Nat) :
    Nat → Nat → List (Option Nat) → Nat × List (Option Nat)
  | 0, i, buf => (i - 1, buf)
  | fuel + 1, i, buf =>
    if gfa (i + 1) = none then (i - 1, buf)
    else
      match gra i with
      | none => (i - 1, buf.set (i - 1) none)
      | some r => btLoop gfa gra fuel (i + 1) (buf.set (i - 1) (some r))

/-- `backtrace(void **buffer, int size)` from `execinfo.c` lines 41-57,
parametrised by the frame-walker oracles.  The buffer is passed in and the
(possibly updated) buffer is returned together with the `int` result. -/
def backtrace (gfa gra : Nat → Option Nat) (size : Int) (buf : List (Option Nat)) :
    Int × List (Option Nat) :=
  if size ≤ 0 then (0, buf)
  else
    let r := btLoop gfa gra size.toNat 1 buf
    ((r.1 : Int), r.2)

/-- `realloc_safe(ptr, size)` from `execinfo.c` lines 22-39, acting on the
heap model (count of outstanding allocations).  The overflow guard
`size == 0 || size > SIZE_MAX / 2` frees `ptr` and fails; a failed `realloc`
also frees `ptr`; on success the old block is replaced by the new one.
Returns (success, outstanding allocations afterwards). -/
def realloc_safe (ok : Bool) (heapCount : Nat) (sz : Nat) : Bool × Nat :=
  if sz = 0 ∨ SIZE_MAX / 2 < sz then (false, heapCount - 1)
  else if ok then (true, heapCount)
  else (false, heapCount - 1)

/-- The text `snprintf((char *)rval + clen, alen, "%p <%s+%td> at %s", ...)`
renders for a resolved address (before truncation). -/
def symLine (a : Nat) (s : SymInfo) : String :=
  ptrHexP a ++ " <" ++ s.sname ++ "+" ++ intDec (ptrdiffWrap a s.saddr) ++ "> at " ++ s.fname

/-- The buffer budget `alen` computed for a resolved address
(`execinfo.c` lines 88-96). -/
def symAlen (s : SymInfo) : Nat :=
  2 + ptrSize * 2 + 2 + s.sname.length + 1 + 20 + 5 + s.fname.length + 1

/-- The text rendered for an unresolved address: bare `%p`. -/
def bareLine (a : Nat) : String := ptrHexP a

/-- The buffer budget `alen` for an unresolved address
(`execinfo.c` lines 105-107). -/
def bareAlen : Nat := 2 + ptrSize * 2 + 1

/-- Rendered line and its `alen` budget for one address of the buffered
formatter (the two branches of the `dladdr` test, lines 78-111). -/
def lineOf (resolve : Nat → Option DlInfo) (a : Nat) : String × Nat :=
  match resolveInfo resolve a with
  | some s => (symLine a s, symAlen s)
  | none => (bareLine a, bareAlen)

/-- What one address contributes to the arena: the stored (possibly
`snprintf`-truncated) string together with its reserved block size. -/
def lineBlock (resolve : Nat → Option DlInfo) (a : Nat) : String × Nat :=
  (snprintfStr (lineOf resolve a).2 (lineOf resolve a).1, (lineOf resolve a).2)

/-- The single growing allocation built by `backtrace_symbols`:
`offsets` are the relative values stored in `rval[i]` before the final fixup,
`blocks` are the per-line stored strings with their reserved block sizes laid
out after the pointer header, and `clen` is the current total size. -/
structure Arena where
  offsets : List Nat
  blocks : List (String × Nat)
  clen : Nat
  deriving DecidableEq

/-- The formatting loop of `backtrace_symbols` (`execinfo.c` lines 77-115):
per address, compute `alen`, regrow the arena with `realloc_safe`
(returning `NULL` and an empty heap on failure), store the line at offset
`clen`, record `rval[i] = (char *)clen`, and advance `clen` by `alen`.
`k` is the allocation-call counter, `heapCount` the outstanding-allocation
count of the heap model. -/
def btsLoop (alloc : Nat → Bool) (resolve : Nat → Option DlInfo) :
    List Nat → Nat → Nat → Arena → Option Arena × Nat
  | [], _, heapCount, ar => (some ar, heapCount)
  | a :: rest, k, heapCount, ar =>
    let alen := (lineOf resolve a).2
    let r := realloc_safe (alloc k) heapCount (ar.clen + alen)
    if r.1 then
      btsLoop alloc resolve rest (k + 1) r.2
        { offsets := ar.offsets ++ [ar.clen]
          blocks := ar.blocks ++ [lineBlock resolve a]
          clen := ar.clen + alen }
    else (none, r.2)

/-- `backtrace_symbols(void *const *buffer, int size)` from `execinfo.c`
lines 59-121.  Allocation call `0` is the initial `malloc(size * sizeof(char *))`;
call `j + 1` is the `realloc_safe` for line `j`.  Returns the arena (or `none`
for the `NULL` return) together with the outstanding-allocation count. -/
def backtrace_symbols (alloc : Nat → Bool) (resolve : Nat → Option DlInfo)
    (addrs : List Nat) (size : Int) : Option Arena × Nat :=
  if size ≤ 0 then (none, 0)
  else if alloc 0 then
    btsLoop alloc resolve (addrs.take size.toNat) 1 1
      { offsets := [], blocks := [], clen := size.toNat * ptrSize }
  else (none, 0)

/-- The final fixup `rval[i] += (uintptr_t) rval` (lines 117-118): the
returned pointers, given the arena's base address. -/
def fixup (base : Nat) (ar : Arena) : List Nat :=
  ar.offsets.map (fun o => base + o)

/-- Start offsets of consecutive blocks of the given sizes laid out
back-to-back from `start`. -/
def blockStarts (start : Nat) : List Nat → List Nat
  | [] => []
  | sz :: rest => start :: blockStarts (start + sz) rest

/-- Ceiling of `log10 n` for `n ≥ 1` (and `0` for `n ≤ 1`), via the exact
recurrence `clog10 n = clog10 (ceil (n / 10)) + 1` for `n ≥ 2`; structural
fuel as in `digitsAux` (64 is ample for every value reachable here). -/
def clog10Aux : Nat → Nat → Nat
  | 0, _ => 0
  | fuel + 1, n => if n ≤ 1 then 0 else clog10Aux fuel ((n + 9) / 10) + 1

/-- `#define D10(x) ceil(log10(((x) == 0) ? 2 : ((x) + 1)))` from
`execinfo.c` line 17, computed by the C code in `double` arithmetic.
For `x ≥ 0` the real-arithmetic value is `⌈log10 (x + 1)⌉` (resp. `⌈log10 2⌉`
for `x = 0`), modelled exactly; for `x < 0`, `log10` of a non-positive value
is `NaN` (or `-inf` at `x = -1`) and the subsequent conversion of the line
length to `int` is undefined, modelled as `none`.  (The `double` rounding of
`log10` near powers of ten for `x ≥ 10^17` is not modelled.) -/
def D10 (x : Int) : Option Nat :=
  if x < 0 then none
  else some (clog10Aux 64 (if x = 0 then 2 else x.toNat + 1))

/-- The text `snprintf(buf, len, "%p <%s+%td> at %s\n", ...)` renders for a
resolved address in the streaming formatter (before truncation). -/
def streamSymText (a : Nat) (s : SymInfo) : String :=
  ptrHexP a ++ " <" ++ s.sname ++ "+" ++ intDec (ptrdiffWrap a s.saddr) ++ "> at " ++ s.fname ++ "\n"

/-- Rendered line and computed `len` for one address of the streaming
formatter (`execinfo.c` lines 138-181).  `none` models the undefined length
computation when `D10` is applied to a negative offset. -/
def streamLineOf (resolve : Nat → Option DlInfo) (a : Nat) : Option (String × Nat) :=
  match resolveInfo resolve a with
  | some s =>
    match D10 (ptrdiffWrap a s.saddr) with
    | none => none
    | some d =>
      some (streamSymText a s,
        2 + ptrSize * 2 + 2 + s.sname.length + 1 + d + 5 + s.fname.length + 2)
  | none => some (ptrHexP a ++ "\n", 2 + ptrSize * 2 + 2)

/-- The full (untruncated) line the streaming formatter is meant to emit for
one address. -/
def streamExpected (resolve : Nat → Option DlInfo) (a : Nat) : String :=
  match resolveInfo resolve a with
  | some s => streamSymText a s
  | none => ptrHexP a ++ "\n"

/-- The loop of `backtrace_symbols_fd` (`execinfo.c` lines 137-191): per
address, compute `len`; if `len` exceeds `MAX_STACK_BUFFER`, `malloc` a
buffer (a failed `malloc` returns, abandoning the remaining addresses);
render with `snprintf`, call `write` (whose result is discarded), free any
heap buffer, and continue.  `i` counts lines (indexing the `malloc` and
`write` oracles); the result is the list of strings passed to `write`,
`none` modelling an undefined length computation. -/
def btFdLoop (mallocOk : Nat → Bool) (resolve : Nat → Option DlInfo)
    (writeRes : Nat → Int) : List Nat → Nat → List String → Option (List String)
  | [], _, out => some out
  | a :: rest, i, out =>
    match streamLineOf resolve a with
    | none => none
    | some ln =>
      if ln.2 ≤ MAX_STACK_BUFFER ∨ mallocOk i then
        let buf := snprintfStr ln.2 ln.1
        let _written := writeRes i
        btFdLoop mallocOk resolve writeRes rest (i + 1) (out ++ [buf])
      else some out

/-- `backtrace_symbols_fd(void *const *buffer, int size, int fd)` from
`execinfo.c` lines 123-192, returning the list of strings written to `fd`. -/
def backtrace_symbols_fd (mallocOk : Nat → Bool) (resolve : Nat → Option DlInfo)
    (writeRes : Nat → Int) (addrs : List Nat) (size fd : Int) : Option (List String) :=
  if size ≤ 0 ∨ fd < 0 then some []
  else btFdLoop mallocOk resolve writeRes (addrs.take size.toNat) 0 []

/-! ### Length bounds for the rendered pieces -/

theorem digitsAux_length_le (b : Nat) (_hb : 2 ≤ b) :
    ∀ (fuel k n : Nat) (acc : List Char), n < b ^ k → k ≤ fuel →
      (digitsAux b fuel n acc).length ≤ k + acc.length := by
  intro fuel
  induction fuel with
  | zero =>
    intro k n acc hn hk
    simp only [digitsAux]
    omega
  | succ fuel ih =>
    intro k n acc hn hk
    simp only [digitsAux]
    split
    · omega
    · rename_i hne
      have hk1 : 1 ≤ k := by
        by_contra hcon
        have : k = 0 := by omega
        subst this
        simp at hn
        omega
      obtain ⟨k', rfl⟩ : ∃ k', k = k' + 1 := ⟨k - 1, by omega⟩
      have hdiv : n / b < b ^ k' := by
        apply Nat.div_lt_of_lt_mul
        have : b ^ (k' + 1) = b * b ^ k' := by ring
        omega
      have := ih k' (n / b) (digitChar (n % b) :: acc) hdiv (by omega)
      simp only [List.length_cons] at this
      omega

theorem natDec_length_le (n k : Nat) (h1 : 1 ≤ k) (h64 : k ≤ 64) (hn : n < 10 ^ k) :
    (natDec n).length ≤ k := by
  unfold natDec
  split
  · simpa using h1
  · have := digitsAux_length_le 10 (by norm_num) 64 k n [] hn h64
    simpa using this

theorem intDec_length_le20 (z : Int) (hlo : -(2 ^ 63) ≤ z) (hhi : z < 2 ^ 63) :
    (intDec z).length ≤ 20 := by
  unfold intDec
  split
  · have hle : z.natAbs ≤ 2 ^ 63 := by omega
    have h19 : (natDec z.natAbs).length ≤ 19 :=
      natDec_length_le _ 19 (by norm_num) (by norm_num)
        (lt_of_le_of_lt hle (by norm_num))
    have hm : ("-" : String).length = 1 := rfl
    simp only [String.length_append, hm]
    omega
  · have hlt : z.toNat < 2 ^ 63 := by omega
    have h19 : (natDec z.toNat).length ≤ 19 :=
      natDec_length_le _ 19 (by norm_num) (by norm_num)
        (lt_of_lt_of_le hlt (by norm_num))
    omega

theorem ptrHexP_length_le (a : Nat) (h0 : a ≠ 0) (ha : a < 2 ^ 64) :
    (ptrHexP a).length ≤ 18 := by
  unfold ptrHexP
  rw [if_neg h0]
  have h16 : (digitsAux 16 64 a []).length ≤ 16 := by
    have := digitsAux_length_le 16 (by norm_num) 64 16 a []
      (lt_of_lt_of_le ha (by norm_num)) (by norm_num)
    simpa using this
  have hx : ("0x" : String).length = 2 := rfl
  simp only [String.length_append, hx, String.length_mk]
  omega

theorem ptrHexP_length_pos (a : Nat) : 1 ≤ (ptrHexP a).length := by
  unfold ptrHexP
  split
  · decide
  · have hx : ("0x" : String).length = 2 := rfl
    simp only [String.length_append, hx]
    omega

theorem ptrdiffWrap_bounds (a b : Nat) :
    -(2 ^ 63) ≤ ptrdiffWrap a b ∧ ptrdiffWrap a b < 2 ^ 63 := by
  unfold ptrdiffWrap
  have h1 : (0 : Int) ≤ ((a : Int) - (b : Int) + 2 ^ 63) % 2 ^ 64 :=
    Int.emod_nonneg _ (by norm_num)
  have h2 : ((a : Int) - (b : Int) + 2 ^ 63) % 2 ^ 64 < 2 ^ 64 :=
    Int.emod_lt_of_pos _ (by norm_num)
  omega

theorem symLine_length_add_one_le (a : Nat) (s : SymInfo) (h0 : a ≠ 0) (ha : a < 2 ^ 64) :
    (symLine a s).length + 1 ≤ symAlen s := by
  have hp := ptrHexP_length_le a h0 ha
  have hd := intDec_length_le20 (ptrdiffWrap a s.saddr)
    (ptrdiffWrap_bounds a s.saddr).1 (ptrdiffWrap_bounds a s.saddr).2
  have h1 : (" <" : String).length = 2 := rfl
  have h2 : ("+" : String).length = 1 := rfl
  have h3 : ("> at " : String).length = 5 := rfl
  unfold symLine symAlen ptrSize
  simp only [String.length_append, h1, h2, h3]
  omega

theorem bareLine_length_add_one_le (a : Nat) (h0 : a ≠ 0) (ha : a < 2 ^ 64) :
    (bareLine a).length + 1 ≤ bareAlen := by
  have hp := ptrHexP_length_le a h0 ha
  unfold bareLine bareAlen ptrSize
  omega

theorem snprintfStr_eq (n : Nat) (s : String) (h : s.length + 1 ≤ n) : snprintfStr n s = s := by
  unfold snprintfStr
  rw [if_neg (by omega)]
  have hlen : s.data.length ≤ n - 1 := by
    have : s.data.length = s.length := rfl
    omega
  rw [List.take_of_length_le hlen]

theorem snprintfStr_length_lt (n : Nat) (s : String) (hn : 1 ≤ n) :
    (snprintfStr n s).length + 1 ≤ n := by
  unfold snprintfStr
  rw [if_neg (by omega)]
  have := List.length_take (n - 1) s.data
  simp only [String.length_mk]
  omega

theorem lineOf_length_add_one_le (resolve : Nat → Option DlInfo) (a : Nat)
    (h0 : a ≠ 0) (ha : a < 2 ^ 64) :
    (lineOf resolve a).1.length + 1 ≤ (lineOf resolve a).2 := by
  unfold lineOf
  cases resolveInfo resolve a with
  | some s => exact symLine_length_add_one_le a s h0 ha
  | none => exact bareLine_length_add_one_le a h0 ha

theorem lineOf_alen_ge (resolve : Nat → Option DlInfo) (a : Nat) :
    19 ≤ (lineOf resolve a).2 := by
  rcases hr : resolveInfo resolve a with _ | s <;>
    simp only [lineOf, hr, symAlen, bareAlen, ptrSize] <;> omega

theorem lineBlock_eq (resolve : Nat → Option DlInfo) (a : Nat)
    (h0 : a ≠ 0) (ha : a < 2 ^ 64) :
    lineBlock resolve a = lineOf resolve a := by
  unfold lineBlock
  rw [snprintfStr_eq _ _ (lineOf_length_add_one_le resolve a h0 ha)]

theorem lineBlock_fits (resolve : Nat → Option DlInfo) (a : Nat) :
    (lineBlock resolve a).1.length + 1 ≤ (lineBlock resolve a).2 := by
  unfold lineBlock
  exact snprintfStr_length_lt _ _ (by have := lineOf_alen_ge resolve a; omega)

/-! ### The ceiling-log10 recurrence behind `D10` -/

theorem le_pow_clog10Aux : ∀ (fuel n : Nat), n ≤ 10 ^ fuel → n ≤ 10 ^ clog10Aux fuel n := by
  intro fuel
  induction fuel with
  | zero =>
    intro n hn
    simpa [clog10Aux] using hn
  | succ fuel ih =>
    intro n hn
    by_cases h1 : n ≤ 1
    · simp only [clog10Aux, if_pos h1]
      omega
    · simp only [clog10Aux, if_neg h1]
      have hd := Nat.div_add_mod (n + 9) 10
      have hm : (n + 9) % 10 < 10 := Nat.mod_lt _ (by norm_num)
      have hps : (10 : Nat) ^ (fuel + 1) = 10 * 10 ^ fuel := by ring
      have hmle : (n + 9) / 10 ≤ 10 ^ fuel := by omega
      have hrec := ih ((n + 9) / 10) hmle
      have hps2 : (10 : Nat) ^ (clog10Aux fuel ((n + 9) / 10) + 1) =
          10 * 10 ^ clog10Aux fuel ((n + 9) / 10) := by ring
      omega

theorem clog10Aux_le : ∀ (fuel n : Nat), clog10Aux fuel n ≤ fuel := by
  intro fuel
  induction fuel with
  | zero => intro n; simp [clog10Aux]
  | succ fuel ih =>
    intro n
    by_cases h1 : n ≤ 1
    · simp [clog10Aux, if_pos h1]
    · simp only [clog10Aux, if_neg h1]
      have := ih ((n + 9) / 10)
      omega

theorem intDec_length_le_D10 (z : Int) (d : Nat) (h0 : 0 ≤ z) (hz : z < 2 ^ 63)
    (hd : D10 z = some d) : (intDec z).length ≤ d := by
  unfold D10 at hd
  rw [if_neg (by omega)] at hd
  by_cases hz0 : z = 0
  · subst hz0
    simp only [if_pos rfl, Option.some.injEq] at hd
    subst hd
    have h2 : (2 : Nat) ≤ 10 ^ clog10Aux 64 2 :=
      le_pow_clog10Aux 64 2 (by norm_num)
    have hd1 : 1 ≤ clog10Aux 64 2 := by
      by_contra hcon
      have hzero : clog10Aux 64 2 = 0 := by omega
      rw [hzero] at h2
      simp at h2
    have hv : intDec 0 = "0" := rfl
    rw [hv]
    simpa using hd1
  · have hne : z ≠ 0 := hz0
    simp only [if_neg hne, Option.some.injEq] at hd
    subst hd
    have hle64 : z.toNat + 1 ≤ 10 ^ 64 := by
      have h1 : z.toNat < 2 ^ 63 := by omega
      have h63 : (2 : Nat) ^ 63 < 10 ^ 64 := by norm_num
      omega
    have hpow : z.toNat + 1 ≤ 10 ^ clog10Aux 64 (z.toNat + 1) :=
      le_pow_clog10Aux 64 (z.toNat + 1) hle64
    have hd1 : 1 ≤ clog10Aux 64 (z.toNat + 1) := by
      by_contra hcon
      have hzero : clog10Aux 64 (z.toNat + 1) = 0 := by omega
      rw [hzero] at hpow
      simp at hpow
      omega
    have hd64 : clog10Aux 64 (z.toNat + 1) ≤ 64 := clog10Aux_le 64 (z.toNat + 1)
    have hlen : (natDec z.toNat).length ≤ clog10Aux 64 (z.toNat + 1) :=
      natDec_length_le z.toNat _ hd1 hd64 (by omega)
    unfold intDec
    rw [if_neg (by omega)]
    exact hlen

/-! ### Block layout helpers -/

theorem blockStarts_length (start : Nat) (l : List Nat) :
    (blockStarts start l).length = l.length := by
  induction l generalizing start with
  | nil => rfl
  | cons sz rest ih => simp [blockStarts, ih]

theorem blockStarts_mem (start : Nat) (l : List Nat) (hpos : ∀ x ∈ l, 1 ≤ x) :
    ∀ o ∈ blockStarts start l, start ≤ o ∧ o < start + l.sum := by
  induction l generalizing start with
  | nil => simp [blockStarts]
  | cons sz rest ih =>
    intro o ho
    simp only [blockStarts, List.mem_cons] at ho
    have h1 : 1 ≤ sz := hpos sz (by simp)
    rcases ho with rfl | ho
    · simp only [List.sum_cons]
      omega
    · have := ih (start + sz) (fun x hx => hpos x (by simp [hx])) o ho
      simp only [List.sum_cons]
      omega

/-! ### The allocation model -/

theorem realloc_safe_spec (ok : Bool) (hp sz : Nat) :
    (sz ≠ 0 ∧ sz ≤ SIZE_MAX / 2 ∧ ok = true ∧ realloc_safe ok hp sz = (true, hp)) ∨
    ((sz = 0 ∨ SIZE_MAX / 2 < sz ∨ ok = false) ∧ realloc_safe ok hp sz = (false, hp - 1)) := by
  unfold realloc_safe
  by_cases hg : sz = 0 ∨ SIZE_MAX / 2 < sz
  · right
    rw [if_pos hg]
    exact ⟨by tauto, rfl⟩
  · rw [if_neg hg]
    push_neg at hg
    cases ok
    · right
      exact ⟨by tauto, rfl⟩
    · left
      exact ⟨hg.1, by omega, rfl, rfl⟩

theorem btsLoop_heap (alloc : Nat → Bool) (resolve : Nat → Option DlInfo) :
    ∀ (l : List Nat) (k hp : Nat) (ar : Arena),
      ((btsLoop alloc resolve l k hp ar).1 = none →
        (btsLoop alloc resolve l k hp ar).2 = hp - 1) ∧
      (∀ ar', (btsLoop alloc resolve l k hp ar).1 = some ar' →
        (btsLoop alloc resolve l k hp ar).2 = hp) := by
  intro l
  induction l with
  | nil =>
    intro k hp ar
    refine ⟨fun h => ?_, fun ar' _ => rfl⟩
    simp [btsLoop] at h
  | cons a rest ih =>
    intro k hp ar
    rcases realloc_safe_spec (alloc k) hp (ar.clen + (lineOf resolve a).2) with
      ⟨-, -, -, hr⟩ | ⟨-, hr⟩ <;> simp only [btsLoop, hr]
    · exact ih (k + 1) hp _
    · exact ⟨fun _ => rfl, fun ar' h => by simp at h⟩

theorem btsLoop_some_struct (alloc : Nat → Bool) (resolve : Nat → Option DlInfo) :
    ∀ (l : List Nat) (k hp : Nat) (ar ar' : Arena) (h2 : Nat),
      btsLoop alloc resolve l k hp ar = (some ar', h2) →
      ar'.offsets = ar.offsets ++ blockStarts ar.clen (l.map fun a => (lineOf resolve a).2) ∧
      ar'.blocks = ar.blocks ++ l.map (lineBlock resolve) ∧
      ar'.clen = ar.clen + (l.map fun a => (lineOf resolve a).2).sum := by
  intro l
  induction l with
  | nil =>
    intro k hp ar ar' h2 h
    simp only [btsLoop, Prod.mk.injEq, Option.some.injEq] at h
    obtain ⟨rfl, -⟩ := h
    simp [blockStarts]
  | cons a rest ih =>
    intro k hp ar ar' h2 h
    rcases realloc_safe_spec (alloc k) hp (ar.clen + (lineOf resolve a).2) with
      ⟨-, -, -, hr⟩ | ⟨-, hr⟩ <;> simp only [btsLoop, hr] at h
    · obtain ⟨ho, hb, hc⟩ := ih (k + 1) hp _ ar' h2 h
      simp only at ho hb hc
      refine ⟨?_, ?_, ?_⟩
      · rw [ho]
        simp [blockStarts, List.map_cons, List.append_assoc]
      · rw [hb]
        simp [List.map_cons, List.append_assoc]
      · rw [hc]
        simp only [List.map_cons, List.sum_cons]
        omega
    · simp at h

theorem btsLoop_clen_bound (alloc : Nat → Bool) (resolve : Nat → Option DlInfo) :
    ∀ (l : List Nat) (k hp : Nat) (ar ar' : Arena) (h2 : Nat),
      0 < ar.clen → ar.clen ≤ SIZE_MAX / 2 →
      btsLoop alloc resolve l k hp ar = (some ar', h2) →
      0 < ar'.clen ∧ ar'.clen ≤ SIZE_MAX / 2 := by
  intro l
  induction l with
  | nil =>
    intro k hp ar ar' h2 hpos hle h
    simp only [btsLoop, Prod.mk.injEq, Option.some.injEq] at h
    obtain ⟨rfl, -⟩ := h
    exact ⟨hpos, hle⟩
  | cons a rest ih =>
    intro k hp ar ar' h2 hpos hle h
    rcases realloc_safe_spec (alloc k) hp (ar.clen + (lineOf resolve a).2) with
      ⟨hne, hszle, -, hr⟩ | ⟨-, hr⟩ <;> simp only [btsLoop, hr] at h
    · have hpos' : 0 < ar.clen + (lineOf resolve a).2 := by omega
      exact ih (k + 1) hp _ ar' h2 hpos' hszle h
    · simp at h

theorem btsLoop_alloc_fail (alloc : Nat → Bool) (resolve : Nat → Option DlInfo) :
    ∀ (l : List Nat) (k : Nat) (ar : Arena),
      (∃ j, k ≤ j ∧ j < k + l.length ∧ alloc j = false) →
      btsLoop alloc resolve l k 1 ar = (none, 0) := by
  intro l
  induction l with
  | nil =>
    intro k ar hex
    obtain ⟨j, hj1, hj2, -⟩ := hex
    simp at hj2
    omega
  | cons a rest ih =>
    intro k ar hex
    obtain ⟨j, hj1, hj2, hjf⟩ := hex
    rcases realloc_safe_spec (alloc k) 1 (ar.clen + (lineOf resolve a).2) with
      ⟨-, -, hok, hr⟩ | ⟨-, hr⟩ <;> simp only [btsLoop, hr]
    · apply ih (k + 1)
      refine ⟨j, ?_, ?_, hjf⟩
      · rcases Nat.eq_or_lt_of_le hj1 with rfl | hlt
        · rw [hok] at hjf; simp at hjf
        · omega
      · simp at hj2 ⊢
        omega
    · rfl

theorem backtrace_symbols_none_heap (alloc : Nat → Bool) (resolve : Nat → Option DlInfo)
    (addrs : List Nat) (size : Int) :
    (backtrace_symbols alloc resolve addrs size).1 = none →
    (backtrace_symbols alloc resolve addrs size).2 = 0 := by
  unfold backtrace_symbols
  split
  · simp
  · split
    · intro h
      have := (btsLoop_heap alloc resolve (addrs.take size.toNat) 1 1
        { offsets := [], blocks := [], clen := size.toNat * ptrSize }).1 h
      simpa using this
    · simp

/-! ### The frame-capture loop -/

theorem btLoop_spec (gfa gra : Nat → Option Nat) :
    ∀ (fuel i : Nat) (buf : List (Option Nat)) (c : Nat) (buf' : List (Option Nat)),
      1 ≤ i → i - 1 + fuel ≤ buf.length →
      btLoop gfa gra fuel i buf = (c, buf') →
      (i - 1 ≤ c ∧ c ≤ i - 1 + fuel) ∧
      (∀ j, i - 1 ≤ j → j < c → buf'[j]? = some (gra (j + 1)) ∧ gra (j + 1) ≠ none) ∧
      (∀ j, j < i - 1 ∨ c < j → buf'[j]? = buf[j]?) ∧
      (buf'[c]? = buf[c]? ∨ (gra (c + 1) = none ∧ buf'[c]? = some none)) ∧
      (c = i - 1 + fuel ∨ gfa (c + 2) = none ∨ gra (c + 1) = none) := by
  intro fuel
  induction fuel with
  | zero =>
    intro i buf c buf' hi hlen h
    simp only [btLoop, Prod.mk.injEq] at h
    obtain ⟨rfl, rfl⟩ := h
    refine ⟨⟨le_refl _, by omega⟩, fun j hj1 hj2 => by omega, fun j _ => rfl,
      Or.inl rfl, Or.inl (by omega)⟩
  | succ fuel ih =>
    intro i buf c buf' hi hlen h
    simp only [btLoop] at h
    by_cases hg : gfa (i + 1) = none
    · rw [if_pos hg] at h
      simp only [Prod.mk.injEq] at h
      obtain ⟨rfl, rfl⟩ := h
      refine ⟨⟨le_refl _, by omega⟩, fun j hj1 hj2 => by omega, fun j _ => rfl,
        Or.inl rfl, Or.inr (Or.inl ?_)⟩
      rw [show i - 1 + 2 = i + 1 from by omega]
      exact hg
    · rw [if_neg hg] at h
      cases hgr : gra i with
      | none =>
        simp only [hgr, Prod.mk.injEq] at h
        obtain ⟨rfl, rfl⟩ := h
        refine ⟨⟨le_refl _, by omega⟩, fun j hj1 hj2 => by omega, ?_, ?_, ?_⟩
        · intro j hj
          exact List.getElem?_set_ne (by omega)
        · right
          refine ⟨?_, ?_⟩
          · rw [show i - 1 + 1 = i from by omega]
            exact hgr
          · rw [List.getElem?_set_self (by omega)]
        · right
          right
          rw [show i - 1 + 1 = i from by omega]
          exact hgr
      | some r =>
        simp only [hgr] at h
        have hlen2 : (i + 1) - 1 + fuel ≤ (buf.set (i - 1) (some r)).length := by
          rw [List.length_set]
          omega
        obtain ⟨⟨hA1, hA2⟩, hB, hC, hD, hE⟩ :=
          ih (i + 1) (buf.set (i - 1) (some r)) c buf' (by omega) hlen2 h
        refine ⟨⟨by omega, by omega⟩, ?_, ?_, ?_, ?_⟩
        · intro j hj1 hj2
          by_cases hji : j = i - 1
          · subst hji
            have hCx := hC (i - 1) (Or.inl (by omega))
            rw [hCx, List.getElem?_set_self (by omega)]
            refine ⟨?_, ?_⟩
            · rw [show i - 1 + 1 = i from by omega, hgr]
            · rw [show i - 1 + 1 = i from by omega, hgr]
              simp
          · exact hB j (by omega) hj2
        · intro j hj
          rcases hj with hj | hj
          · rw [hC j (Or.inl (by omega)), List.getElem?_set_ne (by omega)]
          · rw [hC j (Or.inr hj), List.getElem?_set_ne (by omega)]
        · rcases hD with hD | hD
          · left
            rw [hD, List.getElem?_set_ne (by omega)]
          · right
            exact hD
        · rcases hE with hE | hE
          · left
            omega
          · right
            exact hE

/-- C3: for every capacity > 0, `backtrace` returns a count with
`0 ≤ count ≤ capacity`, collects the return addresses in caller order into
`buffer[0..count)` with none missing and none skipped, and stops exactly when
a null frame pointer is observed, a null return address is observed, or
`capacity` addresses have been collected. -/
theorem backtrace_spec (gfa gra : Nat → Option Nat) (size : Int) (buf : List (Option Nat))
    (hsize : 0 < size) (hbuf : size.toNat ≤ buf.length) :
    0 ≤ (backtrace gfa gra size buf).1 ∧
    (backtrace gfa gra size buf).1 ≤ size ∧
    (∀ j, j < (backtrace gfa gra size buf).1.toNat →
      (backtrace gfa gra size buf).2[j]? = some (gra (j + 1)) ∧ gra (j + 1) ≠ none) ∧
    ((backtrace gfa gra size buf).1 = size ∨
      gfa ((backtrace gfa gra size buf).1.toNat + 2) = none ∨
      gra ((backtrace gfa gra size buf).1.toNat + 1) = none) := by
  obtain ⟨c, buf', hcb⟩ : ∃ c buf', btLoop gfa gra size.toNat 1 buf = (c, buf') := ⟨_, _, rfl⟩
  have hval : backtrace gfa gra size buf = ((c : Int), buf') := by
    unfold backtrace
    rw [if_neg (by omega), hcb]
  obtain ⟨⟨hA1, hA2⟩, hB, hC, hD, hE⟩ :=
    btLoop_spec gfa gra size.toNat 1 buf c buf' (le_refl 1) (by omega) hcb
  rw [hval]
  dsimp only [Int.toNat_natCast]
  refine ⟨Int.natCast_nonneg c, by omega, ?_, ?_⟩
  · intro j hj
    exact hB j (by omega) hj
  · rcases hE with hE | hE | hE
    · left
      omega
    · right
      left
      exact hE
    · right
      right
      exact hE

/-- Witness for `backtrace_spec`: a walker with three walkable parent frames
and non-null return addresses, capacity 10. -/
theorem backtrace_spec_witness :
    0 ≤ (backtrace (fun k => if k ≤ 3 then some 1 else none) (fun k => some (100 + k)) 10
      (List.replicate 10 none)).1 ∧
    (backtrace (fun k => if k ≤ 3 then some 1 else none) (fun k => some (100 + k)) 10
      (List.replicate 10 none)).1 ≤ 10 :=
  ⟨(backtrace_spec (fun k => if k ≤ 3 then some 1 else none) (fun k => some (100 + k)) 10
      (List.replicate 10 none) (by decide) (by decide)).1,
   (backtrace_spec (fun k => if k ≤ 3 then some 1 else none) (fun k => some (100 + k)) 10
      (List.replicate 10 none) (by decide) (by decide)).2.1⟩

/-- C4 counterexample: a walker that reports a parent frame but a null first
return address.  `backtrace` with capacity 2 on a buffer previously holding
`[some 5, some 5]` returns count 0, yet `buffer[0]` — an entry at index
`≥ count` — has been overwritten with the null sentinel, contradicting the
claim that entries at index `≥ count` are left unchanged. -/
theorem backtrace_writes_at_count :
    backtrace (fun _ => some 1) (fun _ => none) 2 [some 5, some 5] = (0, [none, some 5]) ∧
    ([none, some 5] : List (Option Nat))[0]? ≠ ([some 5, some 5] : List (Option Nat))[0]? := by
  decide

/-- C4 (amended): writes are confined to `buffer[0..count]`: entries at index
strictly greater than `count` are left unchanged, and the entry at index
`count` itself is either unchanged or overwritten with the null sentinel —
the latter exactly when the walk stopped on a null return address; for every
capacity ≤ 0 the call returns 0 and writes nothing to the buffer. -/
theorem backtrace_write_confinement (gfa gra : Nat → Option Nat) (size : Int)
    (buf : List (Option Nat)) (hbuf : size.toNat ≤ buf.length) :
    (size ≤ 0 → backtrace gfa gra size buf = (0, buf)) ∧
    (∀ j, (backtrace gfa gra size buf).1.toNat < j →
      (backtrace gfa gra size buf).2[j]? = buf[j]?) ∧
    ((backtrace gfa gra size buf).2[(backtrace gfa gra size buf).1.toNat]? =
        buf[(backtrace gfa gra size buf).1.toNat]? ∨
      (gra ((backtrace gfa gra size buf).1.toNat + 1) = none ∧
        (backtrace gfa gra size buf).2[(backtrace gfa gra size buf).1.toNat]? = some none)) := by
  by_cases hsz : size ≤ 0
  · have hval : backtrace gfa gra size buf = (0, buf) := by
      unfold backtrace
      rw [if_pos hsz]
    rw [hval]
    exact ⟨fun _ => rfl, fun j _ => rfl, Or.inl rfl⟩
  · obtain ⟨c, buf', hcb⟩ : ∃ c buf', btLoop gfa gra size.toNat 1 buf = (c, buf') := ⟨_, _, rfl⟩
    have hval : backtrace gfa gra size buf = ((c : Int), buf') := by
      unfold backtrace
      rw [if_neg hsz, hcb]
    obtain ⟨hA, hB, hC, hD, hE⟩ :=
      btLoop_spec gfa gra size.toNat 1 buf c buf' (le_refl 1) (by omega) hcb
    rw [hval]
    dsimp only [Int.toNat_natCast]
    exact ⟨fun h => absurd h hsz, fun j hj => hC j (Or.inr hj), hD⟩

/-- Witness for `backtrace_write_confinement`: on the concrete null-return
walker the entry at index 1 (strictly past the returned count 0) is
unchanged. -/
theorem backtrace_write_confinement_witness :
    (backtrace (fun _ => some 1) (fun _ => none) 2 [some 5, some 5]).2[1]? =
      ([some 5, some 5] : List (Option Nat))[1]? :=
  (backtrace_write_confinement (fun _ => some 1) (fun _ => none) 2 [some 5, some 5]
    (by decide)).2.1 1 (by decide)

/-! ### The buffered formatter -/

theorem ptrHexP_append_ne_empty (a : Nat) (t : String) : ptrHexP a ++ t ≠ "" := by
  intro h
  have h1 := ptrHexP_length_pos a
  have h2 : (ptrHexP a ++ t).length = 0 := by rw [h]; rfl
  rw [String.length_append] at h2
  omega

theorem lineOf_fst_has_addr (resolve : Nat → Option DlInfo) (a : Nat) :
    ∃ t, (lineOf resolve a).1 = ptrHexP a ++ t := by
  rcases hr : resolveInfo resolve a with _ | s
  · exact ⟨"", by simp [lineOf, hr, bareLine]⟩
  · exact ⟨" <" ++ s.sname ++ "+" ++ intDec (ptrdiffWrap a s.saddr) ++ "> at " ++ s.fname,
      by simp [lineOf, hr, symLine, String.append_assoc]⟩

theorem backtrace_symbols_some_elim (alloc : Nat → Bool) (resolve : Nat → Option DlInfo)
    (addrs : List Nat) (size : Int) (ar : Arena)
    (hsome : (backtrace_symbols alloc resolve addrs size).1 = some ar) :
    0 < size ∧ alloc 0 = true ∧
    btsLoop alloc resolve (addrs.take size.toNat) 1 1
      { offsets := [], blocks := [], clen := size.toNat * ptrSize } =
      (some ar, (backtrace_symbols alloc resolve addrs size).2) := by
  unfold backtrace_symbols at hsome ⊢
  by_cases hneg : size ≤ 0
  · rw [if_pos hneg] at hsome
    simp at hsome
  · rw [if_neg hneg] at hsome ⊢
    by_cases h0 : alloc 0 = true
    · rw [if_pos h0] at hsome ⊢
      refine ⟨by omega, h0, ?_⟩
      rw [← hsome]
    · rw [if_neg h0] at hsome
      simp at hsome

/-- C1: whenever `backtrace_symbols` succeeds on `count > 0` addresses, the
arena holds exactly `count` stored strings, in input order; the string for a
resolved address is exactly `symLine` (`ADDRESS <NAME+OFFSET> at MODULE_PATH`,
never truncated by `snprintf`), the string for an unresolved address is the
bare rendered address; every string is non-empty and begins with the rendered
source address. -/
theorem backtrace_symbols_lines (alloc : Nat → Bool) (resolve : Nat → Option DlInfo)
    (addrs : List Nat) (size : Int) (ar : Arena)
    (hlen : addrs.length = size.toNat)
    (haddr : ∀ a ∈ addrs, 0 < a ∧ a < 2 ^ 64)
    (hsome : (backtrace_symbols alloc resolve addrs size).1 = some ar) :
    ar.blocks.length = size.toNat ∧
    (∀ (j : Nat) (a : Nat), addrs[j]? = some a →
      ∃ p : String × Nat, ar.blocks[j]? = some p ∧
        (∀ info, resolve a = some info → p.1 = symLine a (applyDefaults a info)) ∧
        (resolve a = none → p.1 = bareLine a) ∧
        p.1 ≠ "" ∧
        ∃ t, p.1 = ptrHexP a ++ t) := by
  obtain ⟨hpos, h0, hres⟩ := backtrace_symbols_some_elim alloc resolve addrs size ar hsome
  have htake : addrs.take size.toNat = addrs := by
    rw [← hlen]
    exact List.take_length addrs
  rw [htake] at hres
  obtain ⟨ho, hb, hc⟩ := btsLoop_some_struct alloc resolve addrs 1 1 _ ar _ hres
  simp only [List.nil_append] at ho hb hc
  constructor
  · rw [hb]
    simp [hlen]
  · intro j a hja
    have hmem : a ∈ addrs := List.getElem?_mem hja
    obtain ⟨ha0, ha64⟩ := haddr a hmem
    have hane : a ≠ 0 := by omega
    have hblk : ar.blocks[j]? = some (lineBlock resolve a) := by
      rw [hb, List.getElem?_map, hja]
      rfl
    have hpre : ∃ t, (lineBlock resolve a).1 = ptrHexP a ++ t := by
      rw [lineBlock_eq resolve a hane ha64]
      exact lineOf_fst_has_addr resolve a
    refine ⟨lineBlock resolve a, hblk, ?_, ?_, ?_, hpre⟩
    · intro info hinfo
      have hr : resolveInfo resolve a = some (applyDefaults a info) := by
        simp [resolveInfo, hinfo]
      rw [lineBlock_eq resolve a hane ha64]
      simp [lineOf, hr]
    · intro hnone
      have hr : resolveInfo resolve a = none := by
        simp [resolveInfo, hnone]
      rw [lineBlock_eq resolve a hane ha64]
      simp [lineOf, hr]
    · obtain ⟨t, ht⟩ := hpre
      rw [ht]
      exact ptrHexP_append_ne_empty a t

/-- Witness for `backtrace_symbols_lines`: one resolvable address. -/
theorem backtrace_symbols_lines_witness :
    (backtrace_symbols (fun _ => true) (fun _ => some ⟨"libfoo.so", some "f", some 3⟩)
      [5] 1).1 = some ⟨[8], [("0x5 <f+2> at libfoo.so", 57)], 65⟩ ∧
    (⟨[8], [("0x5 <f+2> at libfoo.so", 57)], 65⟩ : Arena).blocks.length = (1 : Int).toNat :=
  ⟨by decide,
   (backtrace_symbols_lines (fun _ => true) (fun _ => some ⟨"libfoo.so", some "f", some 3⟩)
      [5] 1 ⟨[8], [("0x5 <f+2> at libfoo.so", 57)], 65⟩ (by decide) (by decide) (by decide)).1⟩

/-- C2: if any allocation call the formatting run can reach (the initial
`malloc` or any per-line `realloc_safe`) is made to fail, `backtrace_symbols`
returns the absent result and zero allocations remain outstanding — the
arena has been released and no partial result is visible. -/
theorem backtrace_symbols_alloc_failure_clean (alloc : Nat → Bool)
    (resolve : Nat → Option DlInfo) (addrs : List Nat) (size : Int) (k : Nat)
    (hsize : 0 < size) (hlen : addrs.length = size.toNat)
    (hk : k ≤ addrs.length) (hkf : alloc k = false) :
    backtrace_symbols alloc resolve addrs size = (none, 0) := by
  unfold backtrace_symbols
  rw [if_neg (by omega)]
  by_cases h0 : alloc 0 = true
  · rw [if_pos h0]
    apply btsLoop_alloc_fail
    refine ⟨k, ?_, ?_, hkf⟩
    · rcases Nat.eq_zero_or_pos k with rfl | hposk
      · rw [h0] at hkf
        simp at hkf
      · omega
    · rw [List.length_take]
      omega
  · rw [if_neg h0]

/-- Witness for `backtrace_symbols_alloc_failure_clean`: the allocator fails
on the first per-line regrowth (allocation call 1). -/
theorem backtrace_symbols_alloc_failure_clean_witness :
    backtrace_symbols (fun j => decide (j = 0)) (fun _ => none) [5, 6] 2 = (none, 0) :=
  backtrace_symbols_alloc_failure_clean (fun j => decide (j = 0)) (fun _ => none) [5, 6] 2 1
    (by decide) (by decide) (by decide) (by decide)

/-- C9: on every successful return, the result is a single outstanding
allocation; it holds exactly `count` recorded string offsets, all of them at
least `count` pointer-sizes from the start, laid out as consecutive
(back-to-back) blocks that fill the arena exactly, each stored string fitting
inside its own block; after the final fixup each returned string pointer
points strictly inside the one allocation, past the pointer header. -/
theorem arena_single_allocation_layout (alloc : Nat → Bool) (resolve : Nat → Option DlInfo)
    (addrs : List Nat) (size : Int) (ar : Arena)
    (hlen : addrs.length = size.toNat)
    (hsome : (backtrace_symbols alloc resolve addrs size).1 = some ar) :
    (backtrace_symbols alloc resolve addrs size).2 = 1 ∧
    ar.offsets.length = size.toNat ∧
    ar.blocks.length = size.toNat ∧
    ar.offsets = blockStarts (size.toNat * ptrSize) (ar.blocks.map (fun b => b.2)) ∧
    ar.clen = size.toNat * ptrSize + (ar.blocks.map (fun b => b.2)).sum ∧
    (∀ b ∈ ar.blocks, b.1.length + 1 ≤ b.2) ∧
    (∀ base : Nat, ∀ p ∈ fixup base ar,
      base + size.toNat * ptrSize ≤ p ∧ p < base + ar.clen) := by
  obtain ⟨hpos, h0, hres⟩ := backtrace_symbols_some_elim alloc resolve addrs size ar hsome
  have htake : addrs.take size.toNat = addrs := by
    rw [← hlen]
    exact List.take_length addrs
  rw [htake] at hres
  obtain ⟨ho, hb, hc⟩ := btsLoop_some_struct alloc resolve addrs 1 1 _ ar _ hres
  simp only [List.nil_append] at ho hb hc
  have hmap : ar.blocks.map (fun b => b.2) = addrs.map (fun a => (lineOf resolve a).2) := by
    rw [hb, List.map_map]
    rfl
  have hfits : ∀ b ∈ ar.blocks, b.1.length + 1 ≤ b.2 := by
    intro b hbm
    rw [hb] at hbm
    obtain ⟨a, -, rfl⟩ := List.mem_map.mp hbm
    exact lineBlock_fits resolve a
  have hheap : (backtrace_symbols alloc resolve addrs size).2 = 1 := by
    have h1 : (btsLoop alloc resolve addrs 1 1
        { offsets := [], blocks := [], clen := size.toNat * ptrSize }).1 = some ar := by
      rw [hres]
    have h2 := (btsLoop_heap alloc resolve addrs 1 1
      { offsets := [], blocks := [], clen := size.toNat * ptrSize }).2 ar h1
    have h3 := congrArg Prod.snd hres
    simp only at h3
    omega
  refine ⟨hheap, ?_, ?_, ?_, ?_, hfits, ?_⟩
  · rw [ho, blockStarts_length, List.length_map, hlen]
  · rw [hb, List.length_map, hlen]
  · rw [ho, hmap]
  · rw [hc, hmap]
  · intro base p hp
    obtain ⟨o, homem, rfl⟩ := List.mem_map.mp hp
    have hsz : ∀ x ∈ ar.blocks.map (fun b => b.2), 1 ≤ x := by
      intro x hx
      obtain ⟨b, hbm, rfl⟩ := List.mem_map.mp hx
      have := hfits b hbm
      omega
    rw [ho] at homem
    have hsz2 : ∀ x ∈ addrs.map (fun a => (lineOf resolve a).2), 1 ≤ x := by
      rw [← hmap]
      exact hsz
    have hbnd := blockStarts_mem (size.toNat * ptrSize)
      (addrs.map (fun a => (lineOf resolve a).2)) hsz2 o homem
    omega

/-- Witness for `arena_single_allocation_layout`: one unresolvable address;
the arena is the 8-byte pointer header followed by one 19-byte block. -/
theorem arena_single_allocation_layout_witness :
    (backtrace_symbols (fun _ => true) (fun _ => none) [5] 1).2 = 1 ∧
    (⟨[8], [("0x5", 19)], 27⟩ : Arena).offsets.length = (1 : Int).toNat :=
  ⟨(arena_single_allocation_layout (fun _ => true) (fun _ => none) [5] 1
      ⟨[8], [("0x5", 19)], 27⟩ (by decide) (by decide)).1,
   (arena_single_allocation_layout (fun _ => true) (fun _ => none) [5] 1
      ⟨[8], [("0x5", 19)], 27⟩ (by decide) (by decide)).2.1⟩

/-- C10: the overflow guard of `realloc_safe` — a requested size of 0 or
above `SIZE_MAX / 2` — frees the current arena and fails instead of
allocating; consequently a failed `backtrace_symbols` call leaves zero
allocations outstanding, and a successful one never holds an arena of size 0
or beyond `SIZE_MAX / 2` (sizes fit in a C `int` count times the pointer
size plus the guarded growth). -/
theorem realloc_safe_overflow_guard :
    (∀ (ok : Bool) (hp sz : Nat), sz = 0 ∨ SIZE_MAX / 2 < sz →
      realloc_safe ok hp sz = (false, hp - 1)) ∧
    (∀ (alloc : Nat → Bool) (resolve : Nat → Option DlInfo) (addrs : List Nat) (size : Int),
      ((backtrace_symbols alloc resolve addrs size).1 = none →
        (backtrace_symbols alloc resolve addrs size).2 = 0) ∧
      (∀ ar, size < 2 ^ 31 → (backtrace_symbols alloc resolve addrs size).1 = some ar →
        0 < ar.clen ∧ ar.clen ≤ SIZE_MAX / 2)) := by
  constructor
  · intro ok hp sz hg
    unfold realloc_safe
    rw [if_pos hg]
  · intro alloc resolve addrs size
    refine ⟨backtrace_symbols_none_heap alloc resolve addrs size, ?_⟩
    intro ar hszlt hsome
    obtain ⟨hpos, h0, hres⟩ := backtrace_symbols_some_elim alloc resolve addrs size ar hsome
    have hini1 : 0 < size.toNat * ptrSize := by
      have h1 : 0 < size.toNat := by omega
      unfold ptrSize
      omega
    have hini2 : size.toNat * ptrSize ≤ SIZE_MAX / 2 := by
      have h1 : size.toNat ≤ 2 ^ 31 := by omega
      have h2 : SIZE_MAX / 2 = 2 ^ 63 - 1 := by norm_num [SIZE_MAX]
      have h3 : (2 : Nat) ^ 31 * 8 ≤ 2 ^ 63 - 1 := by norm_num
      unfold ptrSize
      rw [h2]
      calc size.toNat * 8 ≤ 2 ^ 31 * 8 := by omega
        _ ≤ 2 ^ 63 - 1 := h3
    exact btsLoop_clen_bound alloc resolve (addrs.take size.toNat) 1 1
      { offsets := [], blocks := [], clen := size.toNat * ptrSize } ar
      (backtrace_symbols alloc resolve addrs size).2 hini1 hini2 hres

/-- Witness for `realloc_safe_overflow_guard`: a zero-sized request frees the
block; a failing allocator leaves nothing outstanding; a successful tiny call
holds a 27-byte arena within bounds. -/
theorem realloc_safe_overflow_guard_witness :
    realloc_safe true 1 0 = (false, 0) ∧
    (backtrace_symbols (fun _ => false) (fun _ => none) [5] 1).2 = 0 ∧
    (0 < (⟨[8], [("0x5", 19)], 27⟩ : Arena).clen ∧
      (⟨[8], [("0x5", 19)], 27⟩ : Arena).clen ≤ SIZE_MAX / 2) :=
  ⟨realloc_safe_overflow_guard.1 true 1 0 (Or.inl rfl),
   (realloc_safe_overflow_guard.2 (fun _ => false) (fun _ => none) [5] 1).1 (by decide),
   (realloc_safe_overflow_guard.2 (fun _ => true) (fun _ => none) [5] 1).2
     ⟨[8], [("0x5", 19)], 27⟩ (by decide) (by decide)⟩

/-! ### Symbol resolution defaulting and the streaming formatter -/

/-- C5 counterexample: for an address with no containing module (`dladdr`
fails), the code produces no Symbol Info at all — the resolution stage is
absent and the buffered formatter renders the bare address, not a record with
the `"???"` sentinel and offset 0. -/
theorem resolveInfo_absent_on_miss :
    resolveInfo (fun _ => none) 5 = none ∧
    lineOf (fun _ => none) 5 = (bareLine 5, bareAlen) := by
  decide

/-- C5 (amended): when `dladdr` succeeds but reports no symbol name, the name
defaults to the literal `"???"` (never left absent); when it reports no
symbol base address, the base defaults to the queried address, making the
offset 0; when no containing module is found, no Symbol Info is produced and
the formatters render the bare address — graceful degradation, no crash. -/
theorem resolve_defaulting (resolve : Nat → Option DlInfo) (a : Nat) :
    (∀ info, resolve a = some info →
      resolveInfo resolve a = some (applyDefaults a info) ∧
      (info.dli_sname = none → (applyDefaults a info).sname = "???") ∧
      (info.dli_saddr = none → (applyDefaults a info).saddr = a ∧
        ptrdiffWrap a (applyDefaults a info).saddr = 0)) ∧
    (resolve a = none →
      resolveInfo resolve a = none ∧
      lineOf resolve a = (bareLine a, bareAlen) ∧
      streamLineOf resolve a = some (ptrHexP a ++ "\n", 2 + ptrSize * 2 + 2)) := by
  constructor
  · intro info hinfo
    refine ⟨by simp [resolveInfo, hinfo], ?_, ?_⟩
    · intro hs
      simp [applyDefaults, hs]
    · intro hs
      refine ⟨by simp [applyDefaults, hs], ?_⟩
      have hsa : (applyDefaults a info).saddr = a := by simp [applyDefaults, hs]
      rw [hsa]
      unfold ptrdiffWrap
      norm_num
  · intro hnone
    have hr : resolveInfo resolve a = none := by simp [resolveInfo, hnone]
    exact ⟨hr, by simp [lineOf, hr], by simp [streamLineOf, hr]⟩

/-- Witness for `resolve_defaulting`: a module found with neither a symbol
name nor a symbol base address, and a complete resolution miss. -/
theorem resolve_defaulting_witness :
    resolveInfo (fun _ => some ⟨"m", none, none⟩) 7 = some (applyDefaults 7 ⟨"m", none, none⟩) ∧
    (applyDefaults 7 ⟨"m", none, none⟩).sname = "???" ∧
    (applyDefaults 7 ⟨"m", none, none⟩).saddr = 7 ∧
    ptrdiffWrap 7 (applyDefaults 7 ⟨"m", none, none⟩).saddr = 0 ∧
    resolveInfo (fun _ => none) 9 = none :=
  ⟨((resolve_defaulting (fun _ => some ⟨"m", none, none⟩) 7).1 ⟨"m", none, none⟩ rfl).1,
   ((resolve_defaulting (fun _ => some ⟨"m", none, none⟩) 7).1 ⟨"m", none, none⟩ rfl).2.1 rfl,
   (((resolve_defaulting (fun _ => some ⟨"m", none, none⟩) 7).1 ⟨"m", none, none⟩ rfl).2.2 rfl).1,
   (((resolve_defaulting (fun _ => some ⟨"m", none, none⟩) 7).1 ⟨"m", none, none⟩ rfl).2.2 rfl).2,
   ((resolve_defaulting (fun _ => none) 9).2 rfl).1⟩

/-- C6, evaluated at the failing input: for a resolvable address whose offset
is negative (symbol base one byte past the queried address), the streaming
formatter's length formula applies `D10` to `-1`, i.e. computes
`ceil(log10 0)` in `double` arithmetic; no defined length exists and no line
is produced, although the well-defined line `"0x5 <g+-1> at m\n"` that the
claim promises does exist. -/
theorem d10_negative_offset_undefined :
    ptrdiffWrap 5 6 = -1 ∧
    D10 (-1) = none ∧
    backtrace_symbols_fd (fun _ => true) (fun _ => some ⟨"m", some "g", some 6⟩)
      (fun _ => 0) [5] 1 1 = none ∧
    streamSymText 5 (applyDefaults 5 ⟨"m", some "g", some 6⟩) = "0x5 <g+-1> at m\n" := by
  decide

/-- C7: `count ≤ 0` makes the buffered formatter return the absent result
(with nothing allocated), and `count ≤ 0` or a negative destination makes the
streaming formatter write nothing; both are silent no-ops, no error is
signalled. -/
theorem degenerate_inputs_noop (alloc : Nat → Bool) (resolve : Nat → Option DlInfo)
    (mallocOk : Nat → Bool) (writeRes : Nat → Int) (addrs : List Nat) (size fd : Int) :
    (size ≤ 0 → backtrace_symbols alloc resolve addrs size = (none, 0)) ∧
    (size ≤ 0 ∨ fd < 0 →
      backtrace_symbols_fd mallocOk resolve writeRes addrs size fd = some []) := by
  constructor
  · intro h
    unfold backtrace_symbols
    rw [if_pos h]
  · intro h
    unfold backtrace_symbols_fd
    rw [if_pos h]

/-- Witness for `degenerate_inputs_noop`: `size = 0` for the buffered
formatter, a negative descriptor for the streaming formatter. -/
theorem degenerate_inputs_noop_witness :
    backtrace_symbols (fun _ => true) (fun _ => none) [5] 0 = (none, 0) ∧
    backtrace_symbols_fd (fun _ => true) (fun _ => none) (fun _ => 0) [5] 3 (-1) = some [] :=
  ⟨(degenerate_inputs_noop (fun _ => true) (fun _ => none) (fun _ => true) (fun _ => 0)
      [5] 0 (-1)).1 (by decide),
   (degenerate_inputs_noop (fun _ => true) (fun _ => none) (fun _ => true) (fun _ => 0)
      [5] 3 (-1)).2 (Or.inr (by decide))⟩

theorem streamLineOf_defined (resolve : Nat → Option DlInfo) (a : Nat)
    (h0 : a ≠ 0) (ha : a < 2 ^ 64)
    (hoff : ∀ s, resolveInfo resolve a = some s → 0 ≤ ptrdiffWrap a s.saddr) :
    ∃ n, streamLineOf resolve a = some (streamExpected resolve a, n) ∧
      (streamExpected resolve a).length + 1 ≤ n := by
  rcases hr : resolveInfo resolve a with _ | s
  · refine ⟨2 + ptrSize * 2 + 2, ?_, ?_⟩
    · simp [streamLineOf, hr, streamExpected]
    · have hp := ptrHexP_length_le a h0 ha
      have hnl : ("\n" : String).length = 1 := rfl
      simp only [streamExpected, hr, String.length_append, hnl]
      unfold ptrSize
      omega
  · have hz := hoff s hr
    have hzlt := (ptrdiffWrap_bounds a s.saddr).2
    obtain ⟨d, hd⟩ : ∃ d, D10 (ptrdiffWrap a s.saddr) = some d := by
      unfold D10
      rw [if_neg (by omega)]
      exact ⟨_, rfl⟩
    refine ⟨2 + ptrSize * 2 + 2 + s.sname.length + 1 + d + 5 + s.fname.length + 2, ?_, ?_⟩
    · simp [streamLineOf, hr, hd, streamExpected]
    · have hp := ptrHexP_length_le a h0 ha
      have hdl := intDec_length_le_D10 (ptrdiffWrap a s.saddr) d hz hzlt hd
      have h1 : (" <" : String).length = 2 := rfl
      have h2 : ("+" : String).length = 1 := rfl
      have h3 : ("> at " : String).length = 5 := rfl
      have hnl : ("\n" : String).length = 1 := rfl
      simp only [streamExpected, hr, streamSymText, String.length_append, h1, h2, h3, hnl]
      unfold ptrSize
      omega

theorem btFdLoop_complete (mallocOk : Nat → Bool) (resolve : Nat → Option DlInfo)
    (writeRes : Nat → Int) (hm : ∀ k, mallocOk k = true) :
    ∀ (l : List Nat) (i : Nat) (out : List String),
      (∀ a ∈ l, a ≠ 0 ∧ a < 2 ^ 64 ∧
        (∀ s, resolveInfo resolve a = some s → 0 ≤ ptrdiffWrap a s.saddr)) →
      btFdLoop mallocOk resolve writeRes l i out =
        some (out ++ l.map (streamExpected resolve)) := by
  intro l
  induction l with
  | nil =>
    intro i out _
    simp [btFdLoop]
  | cons a rest ih =>
    intro i out hcond
    obtain ⟨h0, ha, hoff⟩ := hcond a (by simp)
    obtain ⟨n, hline, hfit⟩ := streamLineOf_defined resolve a h0 ha hoff
    simp only [btFdLoop, hline]
    rw [if_pos (Or.inr (hm i))]
    rw [snprintfStr_eq n (streamExpected resolve a) hfit]
    rw [ih (i + 1) (out ++ [streamExpected resolve a]) (fun x hx => hcond x (by simp [hx]))]
    simp [List.map_cons, List.append_assoc]

/-- C8: per-line write results never influence the streaming formatter — the
written line sequence is identical for every write-result oracle (failed and
short writes included), no write is retried, and (with defined lengths and
successful allocation) exactly one line per input address is emitted: no
write outcome aborts the trace. -/
theorem stream_writes_best_effort (mallocOk : Nat → Bool) (resolve : Nat → Option DlInfo)
    (addrs : List Nat) (size fd : Int)
    (hsize : 0 < size) (hfd : 0 ≤ fd)
    (hlen : addrs.length = size.toNat)
    (hm : ∀ k, mallocOk k = true)
    (haddr : ∀ a ∈ addrs, a ≠ 0 ∧ a < 2 ^ 64 ∧
      (∀ s, resolveInfo resolve a = some s → 0 ≤ ptrdiffWrap a s.saddr)) :
    ∀ writeRes : Nat → Int,
      backtrace_symbols_fd mallocOk resolve writeRes addrs size fd =
        some (addrs.map (streamExpected resolve)) ∧
      (addrs.map (streamExpected resolve)).length = size.toNat := by
  intro writeRes
  have htake : addrs.take size.toNat = addrs := by
    rw [← hlen]
    exact List.take_length addrs
  constructor
  · unfold backtrace_symbols_fd
    rw [if_neg (by omega), htake]
    have := btFdLoop_complete mallocOk resolve writeRes hm addrs 0 [] haddr
    simpa using this
  · rw [List.length_map, hlen]

/-- Witness for `stream_writes_best_effort`: one resolvable address, a write
oracle that always reports failure; the line is emitted regardless. -/
theorem stream_writes_best_effort_witness :
    backtrace_symbols_fd (fun _ => true) (fun _ => some ⟨"m", some "g", some 3⟩)
      (fun _ => -1) [5] 1 1 =
      some ([5].map (streamExpected (fun _ => some ⟨"m", some "g", some 3⟩))) :=
  (stream_writes_best_effort (fun _ => true) (fun _ => some ⟨"m", some "g", some 3⟩)
    [5] 1 1 (by decide) (by decide) (by decide) (fun _ => rfl)
    (by
      intro a ha
      simp only [List.mem_singleton] at ha
      subst ha
      refine ⟨by decide, by decide, ?_⟩
      intro s hs
      have h2 : (some (⟨"g", 3, "m"⟩ : SymInfo)) = some s := hs
      have hsv : s = ⟨"g", 3, "m"⟩ := by
        injection h2 with h3
        exact h3.symm
      subst hsv
      decide)
    (fun _ => -1)).1
